import Mathlib

/-!
# str_pad: right-padding a C string with spaces

A shallow embedding of `src/library.h` (`str_pad`) together with the
string builder it is written on top of, and the properties of the
padding operation proved over that embedding.

Conventions of the embedding.

* A `char` is a byte, `CChar = Fin 256`; `'\0'` is `0`, `' '` is `32`.
* A `const char *` argument is `Option (List CChar)`: `none` is `NULL`,
  `some m` is a pointer to the bytes `m`.  The C string it designates is
  the part of `m` before the first `0` byte (`cstr m`); the end of the
  list stands for a terminator as well, so `[104, 105]` and
  `[104, 105, 0]` and `[104, 105, 0, 7]` all designate the string "hi".
* `size_t` is 64 bits wide and `ssize_t` is `long int`, 64 bits, two's
  complement (LP64).  Values of type `size_t` are naturals reduced modulo
  `2 ^ 64`; values of type `ssize_t` are integers.
* Allocation never fails: a list can always be extended.
-/

namespace StrPad

/-- A C `char`: one byte. -/
abbrev CChar := Fin 256

/-- The number of values of `size_t` (64 bits). -/
def SIZE_MOD : Nat := 2 ^ 64

/-- The number of non-negative values of `ssize_t` (`long int`, 64 bits). -/
def SSIZE_HALF : Nat := 2 ^ 63

/-! ## The string builder (`string_builder.h`) -/

/-- Modelled from the spec: the structure `string_builder_t` of
`string_builder.h`, which is not among the sources.  The spec gives it an
owned backing storage, a current length (characters written), a current
capacity (allocated slots) and a multiplicative growth factor. -/
structure string_builder_t where
  /-- the backing storage, `capacity` slots -/
  buf : List CChar
  /-- the current length: number of characters written -/
  idx : Nat
  /-- the number of allocated slots -/
  capacity : Nat
  /-- the multiplicative growth factor -/
  growth_factor : ℚ

/-- Modelled from the spec: the capacity a full buffer is reallocated to,
`ceil(capacity * growth_factor)`. -/
def grow_capacity (capacity : Nat) (growth_factor : ℚ) : Nat :=
  ⌈(capacity : ℚ) * growth_factor⌉₊

/-- Modelled from the spec: reallocation of the backing storage to `n`
slots, "preserving existing content": the first `min n (length buf)` bytes
are kept, the slots gained hold no written data (they are filled with `0`
here; nothing below reads a slot before it has been written). -/
def realloc (buf : List CChar) (n : Nat) : List CChar :=
  buf.take n ++ List.replicate (n - buf.length) 0

/-- Modelled from the spec: `Initialize(initial_capacity, growth_factor)`,
which "allocates backing storage of `initial_capacity` slots (minimum 1)". -/
def init_string_builder (initial_capacity : Nat) (growth_factor : ℚ) :
    string_builder_t :=
  { buf := List.replicate (max initial_capacity 1) 0
    idx := 0
    capacity := max initial_capacity 1
    growth_factor := growth_factor }

/-- Modelled from the spec: `AppendChar(c)`: "if length == capacity,
reallocate storage to `ceil(capacity * growth_factor)`, preserving existing
content; then write `c` at position `length`, increment length". -/
def write_char_string_builder (sb : string_builder_t) (c : CChar) :
    string_builder_t :=
  let sb1 : string_builder_t :=
    if sb.idx = sb.capacity then
      { sb with
        buf := realloc sb.buf (grow_capacity sb.capacity sb.growth_factor)
        capacity := grow_capacity sb.capacity sb.growth_factor }
    else sb
  { sb1 with buf := sb1.buf.set sb1.idx c, idx := sb1.idx + 1 }

/-- The characters written so far: the first `idx` slots of the storage. -/
def content (sb : string_builder_t) : List CChar :=
  sb.buf.take sb.idx

/-- Modelled from the spec: `FinalizeNoCopy()`, which "appends a
terminating null character if not already present, and returns the backing
storage directly".  A terminator is present when the last character written
is `0`.  The value returned is the written part of the storage, terminator
included; the slots behind it hold no data. -/
def collect_string_builder_no_copy (sb : string_builder_t) : List CChar :=
  if (content sb).getLast? = some 0 then content sb
  else content (write_char_string_builder sb 0)

/-- The state of a string builder is well formed: the storage has
`capacity` slots, at least one, the length does not exceed the capacity and
the growth factor is above 1. -/
structure WF (sb : string_builder_t) : Prop where
  buf_length : sb.buf.length = sb.capacity
  idx_le : sb.idx ≤ sb.capacity
  capacity_pos : 1 ≤ sb.capacity
  growth_gt : 1 < sb.growth_factor

/-! ## `str_pad` (`src/library.h`) -/

/-- The C string a pointer to the bytes `m` designates: the bytes before
the first `'\0'`. -/
def cstr (m : List CChar) : List CChar :=
  m.takeWhile (fun c => c ≠ 0)

/-- The length of the C string at `m`, as `strlen` would give it. -/
def strlen (m : List CChar) : Nat :=
  (cstr m).length

/-- The conversion of a `size_t` value to `ssize_t` (`long int`): values
from `2 ^ 63` on wrap to the negative numbers. -/
def to_ssize_t (u : Nat) : Int :=
  if u % SIZE_MOD < SSIZE_HALF then ((u % SIZE_MOD : Nat) : Int)
  else ((u % SIZE_MOD : Nat) : Int) - (SIZE_MOD : Int)

/-- Line 97 of `library.h`, `const ssize_t diff = spaces - len;`: the
subtraction is done in `size_t` (modulo `2 ^ 64`) and its result is then
converted to `ssize_t`. -/
def ssize_diff (spaces len : Nat) : Int :=
  to_ssize_t ((spaces + SIZE_MOD - len % SIZE_MOD) % SIZE_MOD)

/-- Lines 87-94 of `library.h`: the loop
`while (*str != '\0') { write_char_string_builder(&sb, *str); len++; str++; }`.
`len` is a `size_t`, so `len++` is an increment modulo `2 ^ 64`. -/
def copy_loop : List CChar → string_builder_t → Nat → string_builder_t × Nat
  | [], sb, len => (sb, len)
  | c :: rest, sb, len =>
    if c ≠ 0 then
      copy_loop rest (write_char_string_builder sb c) ((len + 1) % SIZE_MOD)
    else (sb, len)

/-- Lines 105-108 of `library.h`: the loop
`for (ssize_t i = 0; i < diff; i++) write_char_string_builder(&sb, ' ');`,
by recursion on the number `diff - i` of iterations that remain. -/
def pad_loop : Nat → string_builder_t → string_builder_t
  | 0, sb => sb
  | n + 1, sb => pad_loop n (write_char_string_builder sb 32)

/-- The function `str_pad` of `library.h` (lines 76-112). -/
def str_pad (spaces : Nat) (str : Option (List CChar)) : Option (List CChar) :=
  match str with
  | none => none
  | some m =>
    if spaces = 0 then none
    else
      let sb := init_string_builder 15 (3 / 2)
      let r := copy_loop m sb 0
      let diff : Int := ssize_diff spaces r.2
      if diff ≤ 0 then
        some (collect_string_builder_no_copy r.1)
      else
        some (collect_string_builder_no_copy (pad_loop diff.toNat r.1))


/-! ## The string builder: growth and content -/

theorem grow_capacity_gt (c : Nat) (g : ℚ) (hc : 1 ≤ c) (hg : 1 < g) :
    c < grow_capacity c g := by
  unfold grow_capacity
  rw [Nat.lt_ceil]
  have hc0 : (0 : ℚ) < (c : ℚ) := by exact_mod_cast hc
  exact lt_mul_of_one_lt_right hc0 hg

theorem grow_capacity_15 : grow_capacity 15 (3 / 2) = 23 := by
  unfold grow_capacity
  rw [Nat.ceil_eq_iff (by norm_num)]
  constructor <;> norm_num

theorem take_succ_set (l : List CChar) (i : Nat) (c : CChar) (h : i < l.length) :
    (l.set i c).take (i + 1) = l.take i ++ [c] := by
  induction l generalizing i with
  | nil => simp at h
  | cons a t ih =>
    cases i with
    | zero => simp
    | succ j =>
      have hj : j < t.length := by simpa using h
      simp [ih j hj]

theorem realloc_length (buf : List CChar) (n : Nat) (h : buf.length ≤ n) :
    (realloc buf n).length = n := by
  simp [realloc]
  omega

theorem realloc_take (buf : List CChar) (n i : Nat) (h : buf.length ≤ n)
    (hi : i ≤ buf.length) : (realloc buf n).take i = buf.take i := by
  unfold realloc
  rw [List.take_of_length_le h, List.take_append_of_le_length hi]

theorem init_WF (cap : Nat) (g : ℚ) (hg : 1 < g) : WF (init_string_builder cap g) := by
  constructor <;> simp [init_string_builder, hg]

theorem init_content (cap : Nat) (g : ℚ) : content (init_string_builder cap g) = [] := by
  simp [content, init_string_builder]

theorem write_char_idx (sb : string_builder_t) (c : CChar) :
    (write_char_string_builder sb c).idx = sb.idx + 1 := by
  unfold write_char_string_builder
  split_ifs <;> rfl

theorem write_char_growth (sb : string_builder_t) (c : CChar) :
    (write_char_string_builder sb c).growth_factor = sb.growth_factor := by
  unfold write_char_string_builder
  split_ifs <;> rfl

theorem write_char_WF (sb : string_builder_t) (c : CChar) (h : WF sb) :
    WF (write_char_string_builder sb c) := by
  obtain ⟨h1, h2, h3, h4⟩ := h
  have hgrow := grow_capacity_gt sb.capacity sb.growth_factor h3 h4
  unfold write_char_string_builder
  split_ifs with hfull
  · constructor
    · simp only [List.length_set]
      exact realloc_length _ _ (by omega)
    · simp only; omega
    · simp only; omega
    · exact h4
  · constructor
    · simpa using h1
    · simp only; omega
    · exact h3
    · exact h4

theorem write_char_content (sb : string_builder_t) (c : CChar) (h : WF sb) :
    content (write_char_string_builder sb c) = content sb ++ [c] := by
  obtain ⟨h1, h2, h3, h4⟩ := h
  have hgrow := grow_capacity_gt sb.capacity sb.growth_factor h3 h4
  unfold write_char_string_builder content
  split_ifs with hfull
  · simp only
    rw [take_succ_set _ _ _ (by rw [realloc_length _ _ (by omega)]; omega),
      realloc_take _ _ _ (by omega) (by omega)]
  · simp only
    rw [take_succ_set _ _ _ (by omega)]

theorem foldl_write_WF (cs : List CChar) (sb : string_builder_t) (h : WF sb) :
    WF (cs.foldl write_char_string_builder sb) := by
  induction cs generalizing sb with
  | nil => simpa using h
  | cons c t ih => exact ih _ (write_char_WF sb c h)

theorem foldl_write_content (cs : List CChar) (sb : string_builder_t) (h : WF sb) :
    content (cs.foldl write_char_string_builder sb) = content sb ++ cs := by
  induction cs generalizing sb with
  | nil => simp
  | cons c t ih =>
    rw [List.foldl_cons, ih _ (write_char_WF sb c h), write_char_content sb c h]
    simp

theorem foldl_write_idx (cs : List CChar) (sb : string_builder_t) :
    (cs.foldl write_char_string_builder sb).idx = sb.idx + cs.length := by
  induction cs generalizing sb with
  | nil => simp
  | cons c t ih =>
    rw [List.foldl_cons, ih, write_char_idx]
    simp
    omega

/-! ## C strings -/

theorem cstr_nil : cstr [] = [] := rfl

theorem cstr_cons_zero (t : List CChar) : cstr (0 :: t) = [] := by
  simp [cstr]

theorem cstr_cons_ne (x : CChar) (t : List CChar) (hx : x ≠ 0) :
    cstr (x :: t) = x :: cstr t := by
  simp [cstr, List.takeWhile_cons, hx]

theorem cstr_ne_zero (m : List CChar) : ∀ c ∈ cstr m, c ≠ 0 := by
  intro c hc
  have := List.mem_takeWhile_imp hc
  simpa using this

theorem cstr_of_no_zero (a rest : List CChar) (h : ∀ c ∈ a, c ≠ 0) :
    cstr (a ++ 0 :: rest) = a := by
  induction a with
  | nil => exact cstr_cons_zero rest
  | cons x t ih =>
    have hx : x ≠ 0 := h x (by simp)
    have ht : ∀ c ∈ t, c ≠ 0 := fun c hc => h c (by simp [hc])
    rw [List.cons_append, cstr_cons_ne _ _ hx, ih ht]

theorem cstr_self_of_no_zero (a : List CChar) (h : ∀ c ∈ a, c ≠ 0) : cstr a = a := by
  induction a with
  | nil => rfl
  | cons x t ih =>
    have hx : x ≠ 0 := h x (by simp)
    have ht : ∀ c ∈ t, c ≠ 0 := fun c hc => h c (by simp [hc])
    rw [cstr_cons_ne _ _ hx, ih ht]

theorem cstr_idem (m : List CChar) : cstr (cstr m) = cstr m :=
  cstr_self_of_no_zero _ (cstr_ne_zero m)

theorem padded_no_zero (m : List CChar) (n : Nat) :
    ∀ c ∈ cstr m ++ List.replicate n (32 : CChar), c ≠ 0 := by
  intro c hc
  rcases List.mem_append.mp hc with h | h
  · exact cstr_ne_zero m c h
  · rw [List.eq_of_mem_replicate h]
    decide

theorem cstr_padded (m : List CChar) (n : Nat) :
    cstr (cstr m ++ List.replicate n 32 ++ [0]) = cstr m ++ List.replicate n 32 :=
  cstr_of_no_zero _ [] (padded_no_zero m n)

theorem strlen_padded (m : List CChar) (n : Nat) :
    strlen (cstr m ++ List.replicate n 32 ++ [0]) = strlen m + n := by
  unfold strlen
  rw [cstr_padded]
  simp

/-! ## The loops of `str_pad` and finalization -/

theorem copy_loop_eq (m : List CChar) (sb : string_builder_t) (len : Nat)
    (hlen : len < SIZE_MOD) :
    copy_loop m sb len =
      ((cstr m).foldl write_char_string_builder sb, (len + strlen m) % SIZE_MOD) := by
  induction m generalizing sb len with
  | nil => simp [copy_loop, cstr, strlen, Nat.mod_eq_of_lt hlen]
  | cons x t ih =>
    by_cases hx : x = 0
    · subst hx
      simp [copy_loop, strlen, cstr_cons_zero, Nat.mod_eq_of_lt hlen]
    · have hpos : 0 < SIZE_MOD := by unfold SIZE_MOD; norm_num
      rw [copy_loop, if_pos hx, ih _ _ (Nat.mod_lt _ hpos)]
      unfold strlen
      rw [cstr_cons_ne _ _ hx, List.foldl_cons, List.length_cons]
      congr 1
      simp only [SIZE_MOD]
      omega

theorem pad_loop_eq (n : Nat) (sb : string_builder_t) :
    pad_loop n sb = (List.replicate n (32 : CChar)).foldl write_char_string_builder sb := by
  induction n generalizing sb with
  | zero => simp [pad_loop]
  | succ k ih => simp [pad_loop, ih, List.replicate_succ]

theorem collect_eq (sb : string_builder_t) (h : WF sb) (hz : ∀ c ∈ content sb, c ≠ 0) :
    collect_string_builder_no_copy sb = content sb ++ [0] := by
  unfold collect_string_builder_no_copy
  rw [if_neg, write_char_content sb 0 h]
  intro hlast
  exact hz 0 (List.mem_of_getLast?_eq_some hlast) rfl

/-- The result of `str_pad` on a non-null string and a non-zero width, in
closed form: the input string, then as many spaces as the signed difference
`diff` says (none when it is not positive), then the terminator. -/
theorem str_pad_eq (spaces : Nat) (m : List CChar) (hs : spaces ≠ 0) :
    str_pad spaces (some m) =
      some (cstr m ++ List.replicate (ssize_diff spaces (strlen m)).toNat 32 ++ [0]) := by
  have hpos : 0 < SIZE_MOD := by unfold SIZE_MOD; norm_num
  have hwf0 : WF (init_string_builder 15 (3 / 2)) := init_WF 15 _ (by norm_num)
  have hdiff : ssize_diff spaces ((0 + strlen m) % SIZE_MOD) = ssize_diff spaces (strlen m) := by
    simp [ssize_diff]
  unfold str_pad
  simp only [if_neg hs, copy_loop_eq m _ 0 hpos, hdiff]
  have hwf1 := foldl_write_WF (cstr m) _ hwf0
  have hc1 := foldl_write_content (cstr m) _ hwf0
  rw [init_content, List.nil_append] at hc1
  split_ifs with hd
  · rw [collect_eq _ hwf1 (by rw [hc1]; exact cstr_ne_zero m), hc1,
      Int.toNat_eq_zero.mpr hd]
    simp
  · rw [pad_loop_eq]
    have hwf2 := foldl_write_WF (List.replicate (ssize_diff spaces (strlen m)).toNat 32) _ hwf1
    have hc2 := foldl_write_content
      (List.replicate (ssize_diff spaces (strlen m)).toNat 32) _ hwf1
    rw [hc1] at hc2
    rw [collect_eq _ hwf2 (by rw [hc2]; exact padded_no_zero m _), hc2]

/-! ## The signed difference -/

/-- Where the mathematical difference `spaces - len` fits in `ssize_t`, the
value `diff` of line 97 is that difference. -/
theorem ssize_diff_in_range (spaces len : Nat) (hs : spaces < SIZE_MOD) (hl : len < SIZE_MOD)
    (hlo : -(SSIZE_HALF : Int) ≤ (spaces : Int) - (len : Int))
    (hhi : (spaces : Int) - (len : Int) < (SSIZE_HALF : Int)) :
    ssize_diff spaces len = (spaces : Int) - (len : Int) := by
  unfold ssize_diff to_ssize_t
  simp only [SIZE_MOD, SSIZE_HALF] at *
  split_ifs <;> omega

theorem ssize_diff_toNat_of_lt (spaces len : Nat) (hs : spaces < SIZE_MOD)
    (hlt : len < spaces) (hd : spaces - len < SSIZE_HALF) :
    (ssize_diff spaces len).toNat = spaces - len := by
  have hl : len < SIZE_MOD := by omega
  rw [ssize_diff_in_range spaces len hs hl
    (by simp only [SSIZE_HALF] at *; omega) (by simp only [SSIZE_HALF] at *; omega)]
  omega

theorem ssize_diff_toNat_of_ge (spaces len : Nat) (hl : len < SSIZE_HALF)
    (hge : spaces ≤ len) : (ssize_diff spaces len).toNat = 0 := by
  have hl2 : len < SIZE_MOD := by simp only [SIZE_MOD, SSIZE_HALF] at *; omega
  have hs : spaces < SIZE_MOD := by omega
  rw [ssize_diff_in_range spaces len hs hl2
    (by simp only [SSIZE_HALF] at *; omega) (by simp only [SSIZE_HALF] at *; omega)]
  omega

/-- After padding, the difference computed for the padded string is not
positive, whatever the width and the length were. -/
theorem ssize_diff_after_pad (spaces len : Nat) :
    (ssize_diff spaces (len + (ssize_diff spaces len).toNat)).toNat = 0 := by
  unfold ssize_diff to_ssize_t
  simp only [SIZE_MOD, SSIZE_HALF]
  split_ifs <;> omega

/-! ## Padding where the difference fits in `ssize_t` -/

/-- A string shorter than the width is padded to the width, provided the
number of spaces to add is below `2 ^ 63`. -/
theorem str_pad_pads_in_range (spaces : Nat) (m : List CChar) (hs : spaces < SIZE_MOD)
    (hlt : strlen m < spaces) (hd : spaces - strlen m < SSIZE_HALF) :
    str_pad spaces (some m) =
      some (cstr m ++ List.replicate (spaces - strlen m) 32 ++ [0]) := by
  rw [str_pad_eq spaces m (by omega), ssize_diff_toNat_of_lt spaces _ hs hlt hd]

/-- A string at least as long as the width comes back as it is. -/
theorem str_pad_copies_in_range (spaces : Nat) (m : List CChar) (h0 : spaces ≠ 0)
    (hl : strlen m < SSIZE_HALF) (hge : spaces ≤ strlen m) :
    str_pad spaces (some m) = some (cstr m ++ [0]) := by
  rw [str_pad_eq spaces m h0, ssize_diff_toNat_of_ge spaces _ hl hge]
  simp

/-- Two paddings compose to the padding to the larger width, for widths
and lengths below `2 ^ 63`. -/
theorem str_pad_compose_in_range (w1 w2 : Nat) (m : List CChar) (h1 : 1 ≤ w1) (h2 : 1 ≤ w2)
    (hw1 : w1 < SSIZE_HALF) (hw2 : w2 < SSIZE_HALF) (hl : strlen m < SSIZE_HALF) :
    str_pad w2 (str_pad w1 (some m)) = str_pad (max w1 w2) (some m) := by
  have hM : SSIZE_HALF < SIZE_MOD := by unfold SSIZE_HALF SIZE_MOD; norm_num
  rcases Nat.lt_or_ge (strlen m) w1 with hlt1 | hge1
  · rw [str_pad_pads_in_range w1 m (by omega) hlt1 (by omega)]
    have hlen : strlen (cstr m ++ List.replicate (w1 - strlen m) 32 ++ [0]) = w1 := by
      rw [strlen_padded]; omega
    rcases Nat.lt_or_ge w1 w2 with hlt2 | hge2
    · rw [str_pad_pads_in_range w2 _ (by omega) (by omega) (by omega), cstr_padded, hlen,
        max_eq_right (by omega),
        str_pad_pads_in_range w2 m (by omega) (by omega) (by omega)]
      have hsplit : w2 - strlen m = (w1 - strlen m) + (w2 - w1) := by omega
      rw [hsplit, List.replicate_add]
      simp
    · rw [str_pad_copies_in_range w2 _ (by omega) (by omega) (by omega), cstr_padded,
        max_eq_left hge2, str_pad_pads_in_range w1 m (by omega) hlt1 (by omega)]
  · rw [str_pad_copies_in_range w1 m (by omega) hl hge1]
    have hc : cstr (cstr m ++ [0]) = cstr m := cstr_of_no_zero _ [] (cstr_ne_zero m)
    have hlen : strlen (cstr m ++ [0]) = strlen m := by unfold strlen; rw [hc]
    rcases Nat.lt_or_ge (strlen m) w2 with hlt2 | hge2
    · rw [str_pad_pads_in_range w2 _ (by omega) (by omega) (by omega), hc, hlen,
        max_eq_right (by omega),
        str_pad_pads_in_range w2 m (by omega) hlt2 (by omega)]
    · rw [str_pad_copies_in_range w2 _ (by omega) (by omega) (by omega), hc,
        str_pad_copies_in_range (max w1 w2) m (by omega) hl (by omega)]

/-! ## The claims -/

/-- Claim C1, at the input `str_pad(2^63, "")`: the width `2 ^ 63` is a value
of `size_t` and the empty string is shorter than it, but the result is the
empty string again (the terminator alone), of length 0 and without a single
space: the difference `2 ^ 63 - 0` does not fit in `ssize_t`, is read as
negative, and the branch for strings that need no padding is taken. -/
theorem str_pad_huge_width_not_padded :
    2 ^ 63 < SIZE_MOD ∧ strlen [0] < 2 ^ 63 ∧
      str_pad (2 ^ 63) (some [0]) = some [0] ∧ strlen [0] ≠ 2 ^ 63 := by
  decide

/-- Claim C2: for a width of at least 1 and a string at least as long as
the width (a string in memory is shorter than `2 ^ 63` bytes), `str_pad`
returns the bytes of the string followed by the terminator, so the string
returned equals the input byte for byte. -/
theorem str_pad_long_input_unchanged (spaces : Nat) (m : List CChar) (h1 : 1 ≤ spaces)
    (hl : strlen m < SSIZE_HALF) (hge : spaces ≤ strlen m) :
    str_pad spaces (some m) = some (cstr m ++ [0]) ∧
      cstr (cstr m ++ [0]) = cstr m ∧ strlen (cstr m ++ [0]) = strlen m := by
  have hc : cstr (cstr m ++ [0]) = cstr m := cstr_of_no_zero _ [] (cstr_ne_zero m)
  refine ⟨str_pad_copies_in_range spaces m (by omega) hl hge, hc, ?_⟩
  unfold strlen
  rw [hc]

theorem str_pad_long_input_unchanged_witness :
    (1 ≤ 2 ∧ strlen [104, 101, 108, 108, 111, 0] < SSIZE_HALF ∧
        2 ≤ strlen [104, 101, 108, 108, 111, 0]) ∧
      (str_pad 2 (some [104, 101, 108, 108, 111, 0]) =
          some (cstr [104, 101, 108, 108, 111, 0] ++ [0]) ∧
        cstr (cstr [104, 101, 108, 108, 111, 0] ++ [0]) = cstr [104, 101, 108, 108, 111, 0] ∧
        strlen (cstr [104, 101, 108, 108, 111, 0] ++ [0]) =
          strlen [104, 101, 108, 108, 111, 0]) :=
  ⟨⟨by decide, by decide, by decide⟩,
    str_pad_long_input_unchanged 2 [104, 101, 108, 108, 111, 0]
      (by decide) (by decide) (by decide)⟩

/-- Claim C3: a width of 0 gives the null result whatever the string is,
and a null string gives the null result whatever the width is. -/
theorem str_pad_invalid_argument (spaces : Nat) (str : Option (List CChar)) :
    str_pad 0 str = none ∧ str_pad spaces none = none := by
  constructor
  · cases str <;> rfl
  · rfl

/-- Claim C4: padding the result of a padding to the same width again gives
that result, for every width and every string, the null string included. -/
theorem str_pad_idempotent (spaces : Nat) (str : Option (List CChar)) :
    str_pad spaces (str_pad spaces str) = str_pad spaces str := by
  cases str with
  | none => rfl
  | some m =>
    by_cases h0 : spaces = 0
    · subst h0
      rfl
    · rw [str_pad_eq spaces m h0, str_pad_eq spaces _ h0, cstr_padded, strlen_padded,
        ssize_diff_after_pad]
      simp

/-- Claim C5: the result of `str_pad` is null exactly when the width is 0
or the string is null; on a non-null string and a width of at least 1 (a
successor) the function returns a non-null string. -/
theorem str_pad_null_iff (spaces : Nat) (str : Option (List CChar)) :
    (str_pad spaces str = none ↔ spaces = 0 ∨ str = none) ∧
      (∀ m : List CChar, ∃ r, str_pad (spaces + 1) (some m) = some r) := by
  constructor
  · cases str with
    | none => simp [str_pad]
    | some m =>
      by_cases h0 : spaces = 0
      · simp [str_pad, h0]
      · simp [str_pad_eq spaces m h0, h0]
  · intro m
    exact ⟨_, str_pad_eq (spaces + 1) m (by omega)⟩

/-- Claim C7: after the characters `cs` have been appended one at a time to
a buffer initialized with capacity 15 and growth factor 1.5, the content of
the buffer is `cs` and its length is the length of `cs`; and after the copy
loop of `str_pad` on the bytes `m` (a string of fewer than `2 ^ 64`
characters) the buffer holds the input string and `len` is its length. -/
theorem append_sequence_content (cs m : List CChar) (hm : strlen m < SIZE_MOD) :
    content (cs.foldl write_char_string_builder (init_string_builder 15 (3 / 2))) = cs ∧
      (cs.foldl write_char_string_builder (init_string_builder 15 (3 / 2))).idx = cs.length ∧
      content (copy_loop m (init_string_builder 15 (3 / 2)) 0).1 = cstr m ∧
      (copy_loop m (init_string_builder 15 (3 / 2)) 0).1.idx = strlen m ∧
      (copy_loop m (init_string_builder 15 (3 / 2)) 0).2 = strlen m := by
  have hpos : 0 < SIZE_MOD := by unfold SIZE_MOD; norm_num
  have hwf0 : WF (init_string_builder 15 (3 / 2)) := init_WF 15 _ (by norm_num)
  have hidx0 : (init_string_builder 15 (3 / 2)).idx = 0 := rfl
  rw [copy_loop_eq m _ 0 hpos]
  refine ⟨?_, ?_, ?_, ?_, ?_⟩
  · rw [foldl_write_content cs _ hwf0, init_content, List.nil_append]
  · rw [foldl_write_idx, hidx0, Nat.zero_add]
  · rw [foldl_write_content (cstr m) _ hwf0, init_content, List.nil_append]
  · rw [foldl_write_idx, hidx0, Nat.zero_add]
    rfl
  · simp only [Nat.zero_add]
    exact Nat.mod_eq_of_lt hm

theorem append_sequence_content_witness :
    strlen [104, 105, 0] < SIZE_MOD ∧
      (content ([104, 105, 33].foldl write_char_string_builder
          (init_string_builder 15 (3 / 2))) = [104, 105, 33] ∧
        ([104, 105, 33].foldl write_char_string_builder
          (init_string_builder 15 (3 / 2))).idx = [104, 105, 33].length ∧
        content (copy_loop [104, 105, 0] (init_string_builder 15 (3 / 2)) 0).1 =
          cstr [104, 105, 0] ∧
        (copy_loop [104, 105, 0] (init_string_builder 15 (3 / 2)) 0).1.idx =
          strlen [104, 105, 0] ∧
        (copy_loop [104, 105, 0] (init_string_builder 15 (3 / 2)) 0).2 =
          strlen [104, 105, 0]) :=
  ⟨by decide, append_sequence_content [104, 105, 33] [104, 105, 0] (by decide)⟩

/-- Claim C8: a buffer initialized with a capacity of at least 1 and a
growth factor above 1 has that capacity and a length not above it; an
append to a buffer whose length is within its capacity (with a capacity of
at least 1 and a growth factor above 1) leaves the length within the
capacity; so the length is within the capacity after any sequence of
appends to the initialized buffer. -/
theorem length_le_capacity (cap : Nat) (g : ℚ) (hcap : 1 ≤ cap) (hg : 1 < g)
    (cs : List CChar) :
    (init_string_builder cap g).capacity = cap ∧
      (init_string_builder cap g).idx ≤ (init_string_builder cap g).capacity ∧
      (∀ (sb : string_builder_t) (c : CChar), sb.idx ≤ sb.capacity → 1 ≤ sb.capacity →
        1 < sb.growth_factor →
        (write_char_string_builder sb c).idx ≤ (write_char_string_builder sb c).capacity) ∧
      (cs.foldl write_char_string_builder (init_string_builder cap g)).idx ≤
        (cs.foldl write_char_string_builder (init_string_builder cap g)).capacity := by
  refine ⟨?_, ?_, ?_, ?_⟩
  · simp [init_string_builder, hcap]
  · simp [init_string_builder]
  · intro sb c h2 h3 h4
    have hgrow := grow_capacity_gt sb.capacity sb.growth_factor h3 h4
    unfold write_char_string_builder
    split_ifs with hfull
    · simp only; omega
    · simp only; omega
  · exact (foldl_write_WF cs _ (init_WF cap g hg)).idx_le

theorem length_le_capacity_witness :
    (1 ≤ 15 ∧ (1 : ℚ) < 3 / 2) ∧
      ((init_string_builder 15 (3 / 2)).capacity = 15 ∧
        (init_string_builder 15 (3 / 2)).idx ≤ (init_string_builder 15 (3 / 2)).capacity ∧
        (∀ (sb : string_builder_t) (c : CChar), sb.idx ≤ sb.capacity → 1 ≤ sb.capacity →
          1 < sb.growth_factor →
          (write_char_string_builder sb c).idx ≤ (write_char_string_builder sb c).capacity) ∧
        ([104, 105].foldl write_char_string_builder (init_string_builder 15 (3 / 2))).idx ≤
          ([104, 105].foldl write_char_string_builder
            (init_string_builder 15 (3 / 2))).capacity) :=
  ⟨⟨by decide, by norm_num⟩, length_le_capacity 15 (3 / 2) (by decide) (by norm_num) [104, 105]⟩

/-- Claim C9: for a capacity `c` of at least 1 and a growth factor `g`
above 1 the capacity after growth, `ceil(c * g)`, is above `c`; the
capacity 15 grows to 23 with the factor 1.5 and the capacity 1 grows to at
least 2; and an append to a full buffer of capacity `c` and factor `g`
reallocates to `ceil(c * g)` slots, more than the buffer's length. -/
theorem grow_capacity_strict (c : Nat) (g : ℚ) (hc : 1 ≤ c) (hg : 1 < g) :
    c < grow_capacity c g ∧ grow_capacity 15 (3 / 2) = 23 ∧ 2 ≤ grow_capacity 1 g ∧
      (∀ (sb : string_builder_t) (ch : CChar), sb.capacity = c → sb.growth_factor = g →
        sb.idx = sb.capacity →
        (write_char_string_builder sb ch).capacity = grow_capacity c g ∧
          sb.idx < (write_char_string_builder sb ch).capacity) := by
  have hgt := grow_capacity_gt c g hc hg
  refine ⟨hgt, grow_capacity_15, grow_capacity_gt 1 g (le_refl 1) hg, ?_⟩
  intro sb ch h1 h2 h3
  have hcap : (write_char_string_builder sb ch).capacity = grow_capacity c g := by
    unfold write_char_string_builder
    rw [if_pos h3, h1, h2]
  rw [hcap]
  exact ⟨rfl, by omega⟩

theorem grow_capacity_strict_witness :
    (1 ≤ 15 ∧ (1 : ℚ) < 3 / 2) ∧
      (15 < grow_capacity 15 (3 / 2) ∧ grow_capacity 15 (3 / 2) = 23 ∧
        2 ≤ grow_capacity 1 (3 / 2) ∧
        (∀ (sb : string_builder_t) (ch : CChar), sb.capacity = 15 →
          sb.growth_factor = 3 / 2 → sb.idx = sb.capacity →
          (write_char_string_builder sb ch).capacity = grow_capacity 15 (3 / 2) ∧
            sb.idx < (write_char_string_builder sb ch).capacity)) :=
  ⟨⟨by decide, by norm_num⟩, grow_capacity_strict 15 (3 / 2) (by decide) (by norm_num)⟩

/-- Claim C10, at the input `str_pad(1, str_pad(2^63, ""))`: the inner call
returns the empty string (the width `2 ^ 63` is read as a negative
difference), the outer call pads it to one space, while
`str_pad(max(2^63, 1), "")` is the empty string. -/
theorem str_pad_compose_huge_width :
    1 ≤ 2 ^ 63 ∧ 2 ^ 63 < SIZE_MOD ∧
      str_pad 1 (str_pad (2 ^ 63) (some [0])) = some [32, 0] ∧
      str_pad (max (2 ^ 63) 1) (some [0]) = some [0] ∧
      str_pad 1 (str_pad (2 ^ 63) (some [0])) ≠ str_pad (max (2 ^ 63) 1) (some [0]) := by
  decide

/-! ## Trailing spaces -/

/-- Removing the trailing spaces of a padded string gives the string back,
when the string itself does not end with a space. -/
theorem rdropWhile_space_padded (a : List CChar) (n : Nat) (ha : a.getLast? ≠ some 32) :
    (a ++ List.replicate n (32 : CChar)).rdropWhile (fun c => decide (c = 32)) = a := by
  induction n with
  | zero =>
    rw [List.replicate_zero, List.append_nil, List.rdropWhile_eq_self_iff]
    intro hl hp
    apply ha
    rw [List.getLast?_eq_getLast _ hl]
    simpa using hp
  | succ k ih =>
    rw [List.replicate_succ', ← List.append_assoc,
      List.rdropWhile_concat_pos _ _ _ (by simp), ih]

/-- Claim C11: for a width of at least 1 and two non-null strings neither of
which ends with a space, equal results of `str_pad` come from equal
strings. -/
theorem str_pad_injective (spaces : Nat) (m1 m2 : List CChar) (h1 : 1 ≤ spaces)
    (he1 : (cstr m1).getLast? ≠ some 32) (he2 : (cstr m2).getLast? ≠ some 32)
    (heq : str_pad spaces (some m1) = str_pad spaces (some m2)) :
    cstr m1 = cstr m2 := by
  rw [str_pad_eq spaces m1 (by omega), str_pad_eq spaces m2 (by omega)] at heq
  have hbody := List.append_cancel_right (Option.some.inj heq)
  have hstrip := congrArg (List.rdropWhile (fun c => decide (c = 32))) hbody
  rwa [rdropWhile_space_padded _ _ he1, rdropWhile_space_padded _ _ he2] at hstrip

theorem str_pad_injective_witness :
    (1 ≤ 5 ∧ (cstr [104, 105, 0]).getLast? ≠ some 32 ∧
        (cstr [104, 105, 0, 7]).getLast? ≠ some 32 ∧
        str_pad 5 (some [104, 105, 0]) = str_pad 5 (some [104, 105, 0, 7])) ∧
      cstr [104, 105, 0] = cstr [104, 105, 0, 7] :=
  ⟨⟨by decide, by decide, by decide, by decide⟩,
    str_pad_injective 5 [104, 105, 0] [104, 105, 0, 7]
      (by decide) (by decide) (by decide) (by decide)⟩

end StrPad
